import Mathlib

/-!
Verification development for the xtool TFTP implementation.

The client transfer logic is embedded from `src/tftp/client/client.rs` and
`src/tftp/client/config.rs`.  The repository's `core/packet.rs`,
`core/window.rs` and `core/options.rs` are declared by `core/mod.rs` but their
sources are not present; the corresponding definitions below are modelled from
the design document (wire format in its section 6, option negotiation in 4.2,
window buffer in 4.3) and are marked `Modelled from the spec:` in their doc
comments.

Bytes are modelled as `Nat` (the Rust code works on `u8` buffers); `u16`
arithmetic is modelled as `Nat` with explicit `% 65536` at the points where the
code uses `wrapping_add` / `wrapping_sub`.
-/

namespace Xtool

/-- Option kinds recognized by the protocol (`OptionType` in `core/options`). -/
inductive OptionType
| BlockSize
| WindowSize
| Timeout
| TransferSize
deriving DecidableEq

/-- A requested transfer option (`TransferOption` in `core/options`): a kind
together with a `u64` value, modelled as `Nat`. -/
structure TransferOption where
  option : OptionType
  value : Nat
deriving DecidableEq

/-- The six TFTP packet kinds (`Packet` in `core/packet`).  Strings
(filenames, modes, error messages) are modelled as byte lists. -/
inductive Packet
| Rrq (filename : List Nat) (mode : List Nat) (options : List TransferOption)
| Wrq (filename : List Nat) (mode : List Nat) (options : List TransferOption)
| Data (block_num : Nat) (data : List Nat)
| Ack (block_num : Nat)
| Oack (options : List TransferOption)
| Error (code : Nat) (msg : List Nat)
deriving DecidableEq

/-- u16 `wrapping_add 1`, as used for block counters in `client.rs`. -/
def wadd1 (n : Nat) : Nat := (n + 1) % 65536

/-- u16 `wrapping_sub 1`, as used for the duplicate-ACK resend in
`Client::receive_file`. -/
def wsub1 (n : Nat) : Nat := (n + 65535) % 65536

/-- Continuation state of the client's receive loop. -/
inductive RecvNext
| cont (expected : Nat)
| done
| fail (code : Nat) (msg : List Nat)
deriving DecidableEq

/-- Observable effect of one iteration of the client's receive loop:
the packets it sends, the payload it writes to the local file (if any),
and the continuation. -/
structure RecvOut where
  sent : List Packet
  wrote : Option (List Nat)
  next : RecvNext
deriving DecidableEq

/-- One iteration of the receive loop of `Client::receive_file`
(`client.rs` lines 249-288): an in-order DATA packet is written and ACKed,
completing the transfer when the payload is shorter than the block size; any
other DATA packet is answered with the ACK for `expected - 1` (wrapping) and
the state is unchanged; an ERROR packet fails the transfer with no reply; any
other packet is ignored. -/
def recvStep (blockSize expected : Nat) (p : Packet) : RecvOut :=
  match p with
  | Packet.Data bn d =>
    if bn = expected then
      ⟨[Packet.Ack bn], some d,
        if d.length < blockSize then RecvNext.done else RecvNext.cont (wadd1 expected)⟩
    else
      ⟨[Packet.Ack (wsub1 expected)], none, RecvNext.cont expected⟩
  | Packet.Error c m => ⟨[], none, RecvNext.fail c m⟩
  | _ => ⟨[], none, RecvNext.cont expected⟩

/-- Handling of the packet passed into `Client::receive_file` as
`first_packet` (`client.rs` lines 227-245): only a DATA packet with block
number exactly 1 is processed (written and ACKed); every other packet —
including any ERROR packet — is ignored and the loop is entered with
`expected_block = 1`. -/
def recvFirst (blockSize : Nat) (p : Packet) : RecvOut :=
  match p with
  | Packet.Data 1 d =>
    ⟨[Packet.Ack 1], some d,
      if d.length < blockSize then RecvNext.done else RecvNext.cont 2⟩
  | _ => ⟨[], none, RecvNext.cont 1⟩

/-- A result of one blocking receive on the client socket: either the read
timed out (`socket.recv_from` returned `Err`, which `?` propagates), or a
packet was received and deserialized. -/
inductive NetIn
| timeout
| pkt (p : Packet)
deriving DecidableEq

/-- Terminal outcome of a modelled client transfer loop run. -/
inductive Final
| completed
| timedOut
| peerFailed (code : Nat) (msg : List Nat)
| outOfInput
deriving DecidableEq

/-- The receive loop of `Client::receive_file` run over a stream of socket
read results.  A timeout is an `Err` from `recv_from` which the `?` operator
returns immediately: nothing further is sent and the run fails.  Returns all
packets sent by the loop and the terminal outcome. -/
def recvRun (blockSize expected : Nat) : List NetIn → List Packet × Final
  | [] => ([], Final.outOfInput)
  | NetIn.timeout :: _ => ([], Final.timedOut)
  | NetIn.pkt p :: rest =>
    let r := recvStep blockSize expected p
    match r.next with
    | RecvNext.done => (r.sent, Final.completed)
    | RecvNext.fail c m => (r.sent, Final.peerFailed c m)
    | RecvNext.cont e =>
      let t := recvRun blockSize e rest
      (r.sent ++ t.1, t.2)

/-- Modelled from the spec: `Window::fill` of the missing `core/window.rs`
(spec 4.3).  Reads chunks of at most `B` bytes from the source until the
window holds `fuel` more entries or a read returns fewer than `B` bytes
(end of source); the final short — possibly empty — chunk is buffered, which
is what produces the terminal DATA block strictly shorter than the block size
required by spec 8's block-count property.  Returns the new entries, the
remaining source, and whether the source may still have data. -/
def fillAux (B : Nat) : List Nat → Nat → List (List Nat) × List Nat × Bool
  | src, 0 => ([], src, true)
  | src, fuel + 1 =>
    let chunk := src.take B
    if chunk.length < B then ([chunk], src.drop B, false)
    else
      let t := fillAux B (src.drop B) fuel
      (chunk :: t.1, t.2.1, t.2.2)

/-- Modelled from the spec: `Window::fill` continuing from the entries already
buffered (the Rust loop condition is `elements.len() < window_size`). -/
def fillFrom (win : List (List Nat)) (B W : Nat) (src : List Nat) :
    List (List Nat) × List Nat × Bool :=
  let t := fillAux B src (W - win.length)
  (win ++ t.1, t.2.1, t.2.2)

/-- Tags each window element with its DATA block number, starting at `c` and
advancing with the u16 wrapping increment, exactly as the send loop of
`Client::send_file` does (`client.rs` lines 309-317). -/
def assignNums (c : Nat) : List (List Nat) → List (Nat × List Nat)
  | [] => []
  | d :: ds => (c, d) :: assignNums (wadd1 c) ds

/-- The send loop of `Client::send_file` (`client.rs` lines 304-346) run over
a stream of socket read results, starting from block number `bn` (invariant:
`bn < 65536`), an already-buffered window `win` and remaining source `src`.
Per iteration: fill the window, send every buffered element (tagging block
numbers with the wrapping counter), stop if the source is exhausted and the
window is empty; otherwise block on one receive: a timeout (`Err` from
`recv_from`) propagates immediately; any ACK — its block number is only
logged — clears the window; an ERROR fails the transfer; any other packet is
ignored, leaving the window uncleared; then exit if the source was exhausted,
else loop. -/
def sendRunNet (B W : Nat) :
    Nat → List (List Nat) → List Nat → List NetIn → List (Nat × List Nat) × Final
  | bn, win, src, ins =>
    let t := fillFrom win B W src
    let pkts := assignNums bn t.1
    let bn2 := (bn + t.1.length) % 65536
    if t.1 = [] ∧ t.2.2 = false then (pkts, Final.completed)
    else
      match ins with
      | [] => (pkts, Final.outOfInput)
      | NetIn.timeout :: _ => (pkts, Final.timedOut)
      | NetIn.pkt p :: ins2 =>
        match p with
        | Packet.Ack _ =>
          if t.2.2 then
            let r := sendRunNet B W bn2 [] t.2.1 ins2
            (pkts ++ r.1, r.2)
          else (pkts, Final.completed)
        | Packet.Error c m => (pkts, Final.peerFailed c m)
        | _ =>
          if t.2.2 then
            let r := sendRunNet B W bn2 t.1 t.2.1 ins2
            (pkts ++ r.1, r.2)
          else (pkts, Final.completed)

/-- Modelled from the spec: the effective transfer profile (`OptionsProtocol`
in the missing `core/options.rs`, spec's `EffectiveProfile`). -/
structure OptionsProtocol where
  block_size : Nat
  window_size : Nat
  timeout_secs : Nat
  transfer_size : Option Nat
deriving DecidableEq

/-- Modelled from the spec: `OptionsProtocol::default()` — the RFC 1350
profile used when no OACK is exchanged (spec 4.2: block size 512, window
size 1, conservative fixed timeout). -/
def OptionsProtocol.default : OptionsProtocol := ⟨512, 1, 5, none⟩

/-- Modelled from the spec: clamping of a requested block size into the
protocol's legal range [8, 65464] (spec 3, `EffectiveProfile` invariant). -/
def clampBlock (v : Nat) : Nat := max 8 (min v 65464)

/-- Modelled from the spec: clamping of a requested window size into
[1, 65535] (spec 3, `EffectiveProfile` invariant). -/
def clampWindow (v : Nat) : Nat := max 1 (min v 65535)

/-- Modelled from the spec: `OptionsProtocol::parse` (spec 4.2) — iterate the
options in order, clamp each recognized value and overwrite the profile field
(last occurrence wins); negotiation always succeeds. -/
def OptionsProtocol.parse (opts : List TransferOption) : OptionsProtocol :=
  opts.foldl
    (fun acc o =>
      match o.option with
      | OptionType.BlockSize => ⟨clampBlock o.value, acc.window_size, acc.timeout_secs, acc.transfer_size⟩
      | OptionType.WindowSize => ⟨acc.block_size, clampWindow o.value, acc.timeout_secs, acc.transfer_size⟩
      | OptionType.Timeout => ⟨acc.block_size, acc.window_size, o.value, acc.transfer_size⟩
      | OptionType.TransferSize => ⟨acc.block_size, acc.window_size, acc.timeout_secs, some o.value⟩)
    OptionsProtocol.default

/-- Client configuration (`ClientConfig` in `src/tftp/client/config.rs`).
The network address fields are omitted; the timeout `Duration` is modelled by
its whole seconds. -/
structure ClientConfig where
  block_size : Nat
  timeout_secs : Nat
  window_size : Nat
  mode : List Nat
deriving DecidableEq

/-- `ClientConfig::new` (`config.rs` lines 35-44): block size 512, timeout
5 s, window size 1, mode `octet`. -/
def ClientConfig.new : ClientConfig := ⟨512, 5, 1, [111, 99, 116, 101, 116]⟩

/-- Externally visible side effects of `Client::get` / `Client::put` up to the
start of the transfer loop, in program order. -/
inductive Action
| bindSocket
| sendPkt (p : Packet)
| connectPeer
| createFile
| openFile
deriving DecidableEq

/-- Outcome of the request/first-response phase of `Client::get` /
`Client::put`. -/
inductive InitOutcome
| proceed (opts : OptionsProtocol)
| failed (code : Nat) (msg : List Nat)
| unexpected
| localError
deriving DecidableEq

/-- The option list both `Client::get` and `Client::put` attach to the
request (`client.rs` lines 56-73 and 155-172): block size, window size and
timeout from the configuration, plus a transfer size (0 for a GET, the local
file size for a PUT). -/
def clientRequestOptions (cfg : ClientConfig) (tsize : Nat) : List TransferOption :=
  [⟨OptionType.BlockSize, cfg.block_size⟩,
   ⟨OptionType.WindowSize, cfg.window_size⟩,
   ⟨OptionType.Timeout, cfg.timeout_secs⟩,
   ⟨OptionType.TransferSize, tsize⟩]

/-- `Client::get` up to the start of `receive_file` (`client.rs` lines
45-126), as a trace of side effects driven by the server's first response:
bind, send the RRQ, reconnect to the responding address, then dispatch on the
response — OACK: parse options, send ACK 0, create the local file; DATA:
default profile, create the local file; ERROR: return the peer's code and
message (before the local file is created); anything else: error out. -/
def getRun (cfg : ClientConfig) (remote : List Nat) (response : Packet) :
    List Action × InitOutcome :=
  let pre := [Action.bindSocket,
              Action.sendPkt (Packet.Rrq remote cfg.mode (clientRequestOptions cfg 0)),
              Action.connectPeer]
  match response with
  | Packet.Oack opts =>
    (pre ++ [Action.sendPkt (Packet.Ack 0), Action.createFile],
     InitOutcome.proceed (OptionsProtocol.parse opts))
  | Packet.Data _ _ =>
    (pre ++ [Action.createFile], InitOutcome.proceed OptionsProtocol.default)
  | Packet.Error c m => (pre, InitOutcome.failed c m)
  | _ => (pre, InitOutcome.unexpected)

/-- `Client::put` up to the start of `send_file` (`client.rs` lines 138-210):
if the local file does not exist, return an error before any socket is bound
or any datagram sent; otherwise bind, send the WRQ (with the file size as
transfer size), reconnect, then dispatch on the response — OACK: parse
options, open the local file; ACK 0: default profile, open the local file;
ERROR: return the peer's code and message; anything else: error out. -/
def putRun (cfg : ClientConfig) (localExists : Bool) (fileSize : Nat)
    (remote : List Nat) (response : Packet) : List Action × InitOutcome :=
  if localExists then
    let pre := [Action.bindSocket,
                Action.sendPkt (Packet.Wrq remote cfg.mode (clientRequestOptions cfg fileSize)),
                Action.connectPeer]
    match response with
    | Packet.Oack opts =>
      (pre ++ [Action.openFile], InitOutcome.proceed (OptionsProtocol.parse opts))
    | Packet.Ack 0 => (pre ++ [Action.openFile], InitOutcome.proceed OptionsProtocol.default)
    | Packet.Error c m => (pre, InitOutcome.failed c m)
    | _ => (pre, InitOutcome.unexpected)
  else ([], InitOutcome.localError)

/-! ### Wire codec

The packet codec lives in the repository's `core/packet.rs`, which is declared
by `core/mod.rs` but absent from the sources; it is modelled here from the
spec's section 6 wire format. -/

/-- Modelled from the spec: the byte string of each recognized option name —
`blksize`, `windowsize`, `timeout`, `tsize` (spec 6). -/
def optionName : OptionType → List Nat
  | OptionType.BlockSize => [98, 108, 107, 115, 105, 122, 101]
  | OptionType.WindowSize => [119, 105, 110, 100, 111, 119, 115, 105, 122, 101]
  | OptionType.Timeout => [116, 105, 109, 101, 111, 117, 116]
  | OptionType.TransferSize => [116, 115, 105, 122, 101]

/-- Modelled from the spec: recognition of an option name; an unrecognized
name yields `none`, and the pair is dropped by the option parser (RFC 2347
permissiveness, spec 4.2). -/
def nameToOption (s : List Nat) : Option OptionType :=
  if s = optionName OptionType.BlockSize then some OptionType.BlockSize
  else if s = optionName OptionType.WindowSize then some OptionType.WindowSize
  else if s = optionName OptionType.Timeout then some OptionType.Timeout
  else if s = optionName OptionType.TransferSize then some OptionType.TransferSize
  else none

/-- Modelled from the spec: a numeric option value rendered as decimal ASCII
(spec 6: values are decimal ASCII, not binary integers). -/
def natToDec (n : Nat) : List Nat :=
  if n = 0 then [48] else (Nat.digits 10 n).reverse.map (fun d => d + 48)

/-- Modelled from the spec: parsing a decimal-ASCII value; fails on an empty
or non-digit string. -/
def decToNat (s : List Nat) : Option Nat :=
  if s.isEmpty then none
  else if s.all (fun b => 48 ≤ b && b ≤ 57) then
    some (s.foldl (fun a b => a * 10 + (b - 48)) 0)
  else none

/-- Big-endian encoding of a 16-bit field (spec 6). -/
def u16be (n : Nat) : List Nat := [n / 256 % 256, n % 256]

/-- Validity of a decoded text field: nonzero ASCII bytes (spec 4.1 requires
filenames and error messages to be valid text). -/
def textOk (s : List Nat) : Bool := s.all (fun b => 0 < b && b < 128)

/-- Splits a byte list at its first NUL terminator, failing when no
terminator is present before the end of the buffer (spec 4.1). -/
def splitNul : List Nat → Option (List Nat × List Nat)
  | [] => none
  | b :: rest =>
    if b = 0 then some ([], rest)
    else (splitNul rest).map (fun t => (b :: t.1, t.2))

/-- Modelled from the spec: serialization of one option as a NUL-terminated
name/value string pair (spec 6). -/
def serializeOption (o : TransferOption) : List Nat :=
  optionName o.option ++ [0] ++ natToDec o.value ++ [0]

/-- Modelled from the spec: serialization of an option list. -/
def serializeOptions : List TransferOption → List Nat
  | [] => []
  | o :: rest => serializeOption o ++ serializeOptions rest

/-- Modelled from the spec: `Packet::serialize` of the missing
`core/packet.rs` — the big-endian, opcode-prefixed wire format of spec 6. -/
def serialize : Packet → List Nat
  | Packet.Rrq f m o => [0, 1] ++ f ++ [0] ++ m ++ [0] ++ serializeOptions o
  | Packet.Wrq f m o => [0, 2] ++ f ++ [0] ++ m ++ [0] ++ serializeOptions o
  | Packet.Data b d => [0, 3] ++ u16be b ++ d
  | Packet.Ack b => [0, 4] ++ u16be b
  | Packet.Error c m => [0, 5] ++ u16be c ++ m ++ [0]
  | Packet.Oack o => [0, 6] ++ serializeOptions o

/-- Modelled from the spec: parsing of the option list, with explicit fuel
(each name/value pair consumes one unit; the entry point passes the buffer
length, an upper bound on the number of pairs).  A missing NUL terminator is
a codec error; a pair with an unrecognized name or unparsable value is
dropped without error (spec 4.2). -/
def parseOptionsF : Nat → List Nat → Option (List TransferOption)
  | 0, bytes => if bytes.isEmpty then some [] else none
  | fuel + 1, bytes =>
    if bytes.isEmpty then some []
    else
      match splitNul bytes with
      | none => none
      | some t1 =>
        match splitNul t1.2 with
        | none => none
        | some t2 =>
          match nameToOption t1.1, decToNat t2.1 with
          | some ot, some v => (parseOptionsF fuel t2.2).map (fun l => ⟨ot, v⟩ :: l)
          | _, _ => parseOptionsF fuel t2.2

/-- Modelled from the spec: option-list parsing entry point. -/
def parseOptions (bytes : List Nat) : Option (List TransferOption) :=
  parseOptionsF bytes.length bytes

/-- Modelled from the spec: decoding of the common RRQ/WRQ body — filename
and mode (both NUL-terminated validated text) followed by the option list. -/
def parseReq (rest : List Nat) : Option (List Nat × List Nat × List TransferOption) :=
  match splitNul rest with
  | none => none
  | some t1 =>
    if textOk t1.1 then
      match splitNul t1.2 with
      | none => none
      | some t2 =>
        if textOk t2.1 then (parseOptions t2.2).map (fun o => (t1.1, t2.1, o))
        else none
    else none

/-- Modelled from the spec: `Packet::deserialize` of the missing
`core/packet.rs` (spec 4.1/6): validates that the 2-byte opcode is one of the
six known values, that NUL terminators are present before buffer end, and
that filenames and the error message are valid text; any violation yields
`none` (a codec error) rather than a panic. -/
def deserialize (bytes : List Nat) : Option Packet :=
  match bytes with
  | 0 :: 1 :: rest => (parseReq rest).map (fun t => Packet.Rrq t.1 t.2.1 t.2.2)
  | 0 :: 2 :: rest => (parseReq rest).map (fun t => Packet.Wrq t.1 t.2.1 t.2.2)
  | 0 :: 3 :: a :: b :: payload => some (Packet.Data (a * 256 + b) payload)
  | 0 :: 4 :: [a, b] => some (Packet.Ack (a * 256 + b))
  | 0 :: 5 :: a :: b :: rest =>
    (match splitNul rest with
     | some t =>
       if textOk t.1 && t.2.isEmpty then some (Packet.Error (a * 256 + b) t.1) else none
     | none => none)
  | 0 :: 6 :: rest => (parseOptions rest).map Packet.Oack
  | _ => none

/-- Well-formedness of a packet value as representable by the Rust types and
the wire format: 16-bit block numbers and error codes, text fields of nonzero
ASCII bytes, option values within u64. -/
def packetWf : Packet → Bool
  | Packet.Rrq f m o =>
    textOk f && textOk m && o.all (fun x => x.value < 18446744073709551616)
  | Packet.Wrq f m o =>
    textOk f && textOk m && o.all (fun x => x.value < 18446744073709551616)
  | Packet.Data b _ => b < 65536
  | Packet.Ack b => b < 65536
  | Packet.Error c m => c < 65536 && textOk m
  | Packet.Oack o => o.all (fun x => x.value < 18446744073709551616)

/-! ### Helper lemmas -/

lemma fillAux_fst_ne_nil (B : Nat) (src : List Nat) (fuel : Nat) (h : 0 < fuel) :
    (fillAux B src fuel).1 ≠ [] := by
  cases fuel with
  | zero => omega
  | succ f =>
    simp only [fillAux]
    split <;> simp

lemma fillFrom_fst_ne_nil (win : List (List Nat)) (B W : Nat) (src : List Nat)
    (hW : 0 < W) : (fillFrom win B W src).1 ≠ [] := by
  cases win with
  | nil =>
    simpa [fillFrom] using fillAux_fst_ne_nil B src W hW
  | cons w ws => simp [fillFrom]

lemma assignNums_append (xs ys : List (List Nat)) :
    ∀ c, c < 65536 →
      assignNums c (xs ++ ys) = assignNums c xs ++ assignNums ((c + xs.length) % 65536) ys := by
  induction xs with
  | nil => intro c hc; simp [assignNums, Nat.mod_eq_of_lt hc]
  | cons x xs ih =>
    intro c hc
    simp only [List.cons_append, assignNums, List.length_cons, List.append_eq]
    rw [ih (wadd1 c) (Nat.mod_lt _ (by norm_num))]
    have : ((wadd1 c) + xs.length) % 65536 = (c + (xs.length + 1)) % 65536 := by
      unfold wadd1
      rw [Nat.mod_add_mod]
      congr 1
      omega
    rw [this]

lemma assignNums_getElem (ds : List (List Nat)) :
    ∀ c i, c < 65536 →
      (assignNums c ds)[i]? = ds[i]?.map (fun d => ((c + i) % 65536, d)) := by
  induction ds with
  | nil => intro c i hc; simp [assignNums]
  | cons d ds ih =>
    intro c i hc
    cases i with
    | zero => simp [assignNums, Nat.mod_eq_of_lt hc]
    | succ i =>
      simp only [assignNums, List.getElem?_cons_succ]
      rw [ih (wadd1 c) i (Nat.mod_lt _ (by norm_num))]
      have : ((wadd1 c) + i) % 65536 = (c + (i + 1)) % 65536 := by
        unfold wadd1
        rw [Nat.mod_add_mod]
        congr 1
        omega
      rw [this]

lemma assignNums_map_snd (ds : List (List Nat)) :
    ∀ c, (assignNums c ds).map Prod.snd = ds := by
  induction ds with
  | nil => intro c; rfl
  | cons d ds ih => intro c; simp [assignNums, ih]

lemma assignNums_length (ds : List (List Nat)) :
    ∀ c, (assignNums c ds).length = ds.length := by
  induction ds with
  | nil => intro c; rfl
  | cons d ds ih => intro c; simp [assignNums, ih]

lemma sendRunNet_fst_shape (B W : Nat) :
    ∀ ins bn win src, bn < 65536 →
      ∃ ds, (sendRunNet B W bn win src ins).1 = assignNums bn ds := by
  intro ins
  induction ins with
  | nil =>
    intro bn win src hbn
    refine ⟨(fillFrom win B W src).1, ?_⟩
    simp only [sendRunNet]
    split <;> rfl
  | cons head tail ih =>
    intro bn win src hbn
    have hbn2 : (bn + (fillFrom win B W src).1.length) % 65536 < 65536 :=
      Nat.mod_lt _ (by norm_num)
    by_cases hm : (fillFrom win B W src).2.2 = true
    · cases head with
      | timeout =>
        exact ⟨(fillFrom win B W src).1, by simp only [sendRunNet]; split <;> rfl⟩
      | pkt p =>
        cases p with
        | Ack n =>
          obtain ⟨ds, hds⟩ := ih _ [] (fillFrom win B W src).2.1 hbn2
          refine ⟨(fillFrom win B W src).1 ++ ds, ?_⟩
          rw [assignNums_append _ _ bn hbn, ← hds]
          simp only [sendRunNet]
          rw [if_neg (by simp [hm]), if_pos hm]
        | Error c m =>
          exact ⟨(fillFrom win B W src).1, by simp only [sendRunNet]; split <;> rfl⟩
        | Rrq f mo o =>
          obtain ⟨ds, hds⟩ := ih _ (fillFrom win B W src).1 (fillFrom win B W src).2.1 hbn2
          refine ⟨(fillFrom win B W src).1 ++ ds, ?_⟩
          rw [assignNums_append _ _ bn hbn, ← hds]
          simp only [sendRunNet]
          rw [if_neg (by simp [hm]), if_pos hm]
        | Wrq f mo o =>
          obtain ⟨ds, hds⟩ := ih _ (fillFrom win B W src).1 (fillFrom win B W src).2.1 hbn2
          refine ⟨(fillFrom win B W src).1 ++ ds, ?_⟩
          rw [assignNums_append _ _ bn hbn, ← hds]
          simp only [sendRunNet]
          rw [if_neg (by simp [hm]), if_pos hm]
        | Data bn2 d =>
          obtain ⟨ds, hds⟩ := ih _ (fillFrom win B W src).1 (fillFrom win B W src).2.1 hbn2
          refine ⟨(fillFrom win B W src).1 ++ ds, ?_⟩
          rw [assignNums_append _ _ bn hbn, ← hds]
          simp only [sendRunNet]
          rw [if_neg (by simp [hm]), if_pos hm]
        | Oack o =>
          obtain ⟨ds, hds⟩ := ih _ (fillFrom win B W src).1 (fillFrom win B W src).2.1 hbn2
          refine ⟨(fillFrom win B W src).1 ++ ds, ?_⟩
          rw [assignNums_append _ _ bn hbn, ← hds]
          simp only [sendRunNet]
          rw [if_neg (by simp [hm]), if_pos hm]
    · refine ⟨(fillFrom win B W src).1, ?_⟩
      simp only [Bool.not_eq_true] at hm
      cases head with
      | timeout =>
        simp only [sendRunNet]
        split <;> rfl
      | pkt p =>
        cases p <;> (simp [sendRunNet, hm]; try (split <;> simp))

lemma fillAux_small (B : Nat) (hB : 0 < B) :
    ∀ fuel src, src.length < fuel * B →
      (fillAux B src fuel).1.length = src.length / B + 1
      ∧ (fillAux B src fuel).1.getLast? = some (src.drop (B * (src.length / B)))
      ∧ (fillAux B src fuel).2.2 = false := by
  intro fuel
  induction fuel with
  | zero => intro src h; simp at h
  | succ f ih =>
    intro src h
    rw [Nat.succ_mul] at h
    simp only [fillAux]
    by_cases hs : src.length < B
    · have hc : (List.take B src).length < B := by
        rw [List.length_take]
        omega
      rw [if_pos hc]
      have htake : List.take B src = src := List.take_of_length_le (by omega)
      have hdiv : src.length / B = 0 := Nat.div_eq_of_lt hs
      refine ⟨by simp [hdiv], ?_, rfl⟩
      simp [htake, hdiv]
    · have hc : ¬ (List.take B src).length < B := by
        rw [List.length_take]
        omega
      rw [if_neg hc]
      have hlen : (List.drop B src).length < f * B := by
        rw [List.length_drop]
        omega
      obtain ⟨ih1, ih2, ih3⟩ := ih (List.drop B src) hlen
      have hdiv : src.length / B = (src.length - B) / B + 1 := by
        rw [← Nat.add_div_left (src.length - B) hB]
        congr 1
        omega
      have hne : (fillAux B (List.drop B src) f).1 ≠ [] := by
        intro hnil
        rw [hnil] at ih1
        simp at ih1
      refine ⟨?_, ?_, ih3⟩
      · simp only [List.length_cons, ih1, List.length_drop, hdiv]
      · rw [show (List.take B src :: (fillAux B (List.drop B src) f).1)
              = [List.take B src] ++ (fillAux B (List.drop B src) f).1 from rfl]
        rw [List.getLast?_append, ih2]
        show some _ = _
        rw [List.length_drop, List.drop_drop, hdiv]
        congr 2
        rw [Nat.mul_succ]
        omega

lemma fillAux_big (B : Nat) (_hB : 0 < B) :
    ∀ fuel src, fuel * B ≤ src.length →
      (fillAux B src fuel).1.length = fuel
      ∧ (fillAux B src fuel).2.1 = src.drop (fuel * B)
      ∧ (fillAux B src fuel).2.2 = true := by
  intro fuel
  induction fuel with
  | zero => intro src h; simp [fillAux]
  | succ f ih =>
    intro src h
    rw [Nat.succ_mul] at h
    have hBle : B ≤ src.length := by omega
    simp only [fillAux]
    have hc : ¬ (List.take B src).length < B := by
      rw [List.length_take]
      omega
    rw [if_neg hc]
    have hlen : f * B ≤ (List.drop B src).length := by
      rw [List.length_drop]
      omega
    obtain ⟨ih1, ih2, ih3⟩ := ih (List.drop B src) hlen
    refine ⟨by simp [ih1], ?_, ih3⟩
    rw [ih2, List.drop_drop]
    congr 1
    rw [Nat.succ_mul]
    omega

lemma getLast_map_snd (l : List (Nat × List Nat)) :
    (l.map Prod.snd).getLast? = l.getLast?.map Prod.snd := by
  induction l with
  | nil => rfl
  | cons a l ih =>
    cases l with
    | nil => rfl
    | cons b l =>
      rw [List.map_cons, List.map_cons, List.getLast?_cons_cons, ← List.map_cons, ih,
        List.getLast?_cons_cons]

lemma sendRunNet_happy (B W : Nat) (hB : 0 < B) (hW : 0 < W) :
    ∀ k src bn, src.length < k →
      (sendRunNet B W bn [] src (List.replicate k (NetIn.pkt (Packet.Ack 0)))).2 = Final.completed
      ∧ ((sendRunNet B W bn [] src (List.replicate k (NetIn.pkt (Packet.Ack 0)))).1.map Prod.snd).length
          = src.length / B + 1
      ∧ ((sendRunNet B W bn [] src (List.replicate k (NetIn.pkt (Packet.Ack 0)))).1.map Prod.snd).getLast?
          = some (src.drop (B * (src.length / B))) := by
  intro k
  induction k with
  | zero => intro src bn h; omega
  | succ k ih =>
    intro src bn h
    have hWpos : W - List.length ([] : List (List Nat)) = W := by simp
    by_cases hsmall : src.length < W * B
    · obtain ⟨h1, h2, h3⟩ := fillAux_small B hB W src hsmall
      have hne : (fillFrom [] B W src).1 ≠ [] := by
        simp only [fillFrom, List.nil_append, hWpos]
        intro hnil
        rw [hnil] at h1
        simp at h1
      have hval : (fillFrom [] B W src).1 = (fillAux B src W).1 := by
        simp [fillFrom]
      have hmore : (fillFrom [] B W src).2.2 = false := by
        simp only [fillFrom]
        simpa using h3
      rw [List.replicate_succ]
      simp only [sendRunNet]
      rw [if_neg (by simp [hne])]
      rw [if_neg (by rw [hmore]; simp)]
      refine ⟨rfl, ?_, ?_⟩
      · rw [assignNums_map_snd, hval, h1]
      · rw [assignNums_map_snd, hval, h2]
    · push_neg at hsmall
      obtain ⟨h1, h2, h3⟩ := fillAux_big B hB W src hsmall
      have hne : (fillFrom [] B W src).1 ≠ [] := by
        simp only [fillFrom, List.nil_append, hWpos]
        intro hnil
        rw [hnil] at h1
        simp at h1
        omega
      have hval : (fillFrom [] B W src).1 = (fillAux B src W).1 := by
        simp [fillFrom]
      have hmore : (fillFrom [] B W src).2.2 = true := by
        simp only [fillFrom]
        simpa using h3
      have hWB : 0 < W * B := Nat.mul_pos hW hB
      have hrec : (List.drop (W * B) src).length < k := by
        rw [List.length_drop]
        omega
      have hrest : (fillFrom [] B W src).2.1 = List.drop (W * B) src := by
        simp only [fillFrom]
        simpa using h2
      obtain ⟨ihc, ihl, ihg⟩ := ih (List.drop (W * B) src)
        ((bn + (fillFrom [] B W src).1.length) % 65536) hrec
      have hdiv : src.length / B = W + (List.drop (W * B) src).length / B := by
        have hsplit : src.length = B * W + (src.length - W * B) := by
          rw [Nat.mul_comm]
          omega
        rw [List.length_drop]
        conv_lhs => rw [hsplit]
        rw [Nat.mul_add_div hB]
      rw [List.replicate_succ]
      simp only [sendRunNet]
      rw [if_neg (by simp [hne])]
      rw [if_pos hmore]
      rw [hrest]
      refine ⟨ihc, ?_, ?_⟩
      · rw [List.map_append, List.length_append, assignNums_map_snd, ihl, hval, h1, hdiv,
          List.length_drop]
        omega
      · rw [List.map_append, List.getLast?_append, ihg]
        show some _ = _
        rw [List.drop_drop, List.length_drop, hdiv]
        congr 2
        rw [Nat.mul_add, Nat.mul_comm B W, List.length_drop]

lemma textOk_ne_zero {s : List Nat} (h : textOk s = true) : ∀ b ∈ s, b ≠ 0 := by
  intro b hb
  unfold textOk at h
  have h2 := List.all_eq_true.mp h b hb
  simp only [Bool.and_eq_true, decide_eq_true_eq] at h2
  omega

lemma splitNul_append (s r : List Nat) (h : ∀ b ∈ s, b ≠ 0) :
    splitNul (s ++ 0 :: r) = some (s, r) := by
  induction s with
  | nil => simp [splitNul]
  | cons b s ih =>
    have hb : b ≠ 0 := h b (by simp)
    simp only [List.cons_append, splitNul, if_neg hb, List.append_eq]
    rw [ih (fun x hx => h x (List.mem_cons_of_mem b hx))]
    rfl

lemma natToDec_bounds (n : Nat) : ∀ b ∈ natToDec n, 48 ≤ b ∧ b ≤ 57 := by
  intro b hb
  unfold natToDec at hb
  by_cases h0 : n = 0
  · rw [if_pos h0] at hb
    simp only [List.mem_singleton] at hb
    omega
  · rw [if_neg h0] at hb
    simp only [List.mem_map, List.mem_reverse] at hb
    obtain ⟨d, hd, rfl⟩ := hb
    have := Nat.digits_lt_base (by norm_num) hd
    omega

lemma natToDec_ne_zero (n : Nat) : ∀ b ∈ natToDec n, b ≠ 0 := by
  intro b hb
  have := natToDec_bounds n b hb
  omega

lemma natToDec_ne_nil (n : Nat) : natToDec n ≠ [] := by
  unfold natToDec
  by_cases h0 : n = 0
  · rw [if_pos h0]
    simp
  · rw [if_neg h0]
    simp [Nat.digits_ne_nil_iff_ne_zero.mpr h0]

lemma foldr_eq_ofDigits (L : List Nat) :
    L.foldr (fun d a => a * 10 + d) 0 = Nat.ofDigits 10 L := by
  induction L with
  | nil => simp [Nat.ofDigits_nil]
  | cons d L ih =>
    simp only [List.foldr_cons, Nat.ofDigits_cons, ih]
    omega

lemma decToNat_natToDec (n : Nat) : decToNat (natToDec n) = some n := by
  by_cases h0 : n = 0
  · subst h0
    rfl
  · unfold decToNat
    rw [if_neg (by simp [List.isEmpty_iff, natToDec_ne_nil n])]
    have hall : (natToDec n).all (fun b => 48 ≤ b && b ≤ 57) = true := by
      rw [List.all_eq_true]
      intro b hb
      have := natToDec_bounds n b hb
      simp only [Bool.and_eq_true, decide_eq_true_eq]
      omega
    rw [if_pos hall]
    congr 1
    unfold natToDec
    rw [if_neg h0, List.foldl_map, List.foldl_reverse]
    simp only [Nat.add_sub_cancel]
    rw [foldr_eq_ofDigits, Nat.ofDigits_digits]

lemma nameToOption_optionName (t : OptionType) : nameToOption (optionName t) = some t := by
  cases t <;> decide

lemma optionName_ne_zero (t : OptionType) : ∀ b ∈ optionName t, b ≠ 0 := by
  cases t <;> decide

lemma serializeOptions_roundtrip :
    ∀ opts fuel, opts.length ≤ fuel →
      parseOptionsF fuel (serializeOptions opts) = some opts := by
  intro opts
  induction opts with
  | nil =>
    intro fuel h
    cases fuel <;> rfl
  | cons o rest ih =>
    intro fuel h
    cases fuel with
    | zero => simp at h
    | succ f =>
      have e1 : serializeOptions (o :: rest)
          = optionName o.option ++ 0 :: (natToDec o.value ++ 0 :: serializeOptions rest) := by
        simp [serializeOptions, serializeOption]
      have hne : (optionName o.option ++ 0 :: (natToDec o.value ++ 0 :: serializeOptions rest)).isEmpty
          = false := by
        simp [List.isEmpty_iff]
      rw [e1]
      simp only [parseOptionsF, hne, Bool.false_eq_true, if_false,
        splitNul_append _ _ (optionName_ne_zero o.option),
        splitNul_append _ _ (natToDec_ne_zero o.value),
        nameToOption_optionName, decToNat_natToDec]
      rw [ih f (by simpa using h)]
      rfl

lemma serializeOptions_length (opts : List TransferOption) :
    opts.length ≤ (serializeOptions opts).length := by
  induction opts with
  | nil => simp [serializeOptions]
  | cons o rest ih =>
    simp only [serializeOptions, serializeOption, List.length_append, List.length_cons,
      List.length_nil]
    omega

lemma parseOptions_serializeOptions (opts : List TransferOption) :
    parseOptions (serializeOptions opts) = some opts :=
  serializeOptions_roundtrip opts _ (serializeOptions_length opts)

/-! ### Claim theorems -/

/-- C1 (counterexample): the claim says a receive timeout is not fatal by
itself and the client only fails after more than `retry_limit` consecutive
timeouts.  On the code, a single timeout already terminates the transfer:
the receive loop fails at the first timeout having retransmitted nothing, and
the send loop fails at the first timeout having sent its window exactly once. -/
theorem c1_counterexample :
    recvRun 512 1 [NetIn.timeout] = ([], Final.timedOut)
    ∧ sendRunNet 512 1 1 [] [1, 2, 3] [NetIn.timeout]
        = ([(1, [1, 2, 3])], Final.timedOut) := by
  constructor
  · rfl
  · decide

/-- C1 (amended): for every client transfer (get or put), a receive timeout is
immediately fatal: the error from `recv_from` propagates, the client
retransmits nothing (the packets sent are exactly those of the run cut off at
that receive), and the run terminates as failed on the first timeout —
consequently any number of consecutive timeouts also terminates the transfer
rather than looping. -/
theorem c1_timeout_immediately_fatal :
    (∀ B e ins, recvRun B e (NetIn.timeout :: ins) = ([], Final.timedOut))
    ∧ (∀ B W bn win src ins, 0 < W →
        sendRunNet B W bn win src (NetIn.timeout :: ins)
          = ((sendRunNet B W bn win src []).1, Final.timedOut)) := by
  constructor
  · intro B e ins; rfl
  · intro B W bn win src ins hW
    have hne := fillFrom_fst_ne_nil win B W src hW
    simp only [sendRunNet]
    rw [if_neg (by simp [hne]), if_neg (by simp [hne])]

/-- C1 (witness). -/
theorem c1_witness :
    0 < 1
    ∧ sendRunNet 512 1 7 [] [9] (NetIn.timeout :: [])
        = ((sendRunNet 512 1 7 [] [9] []).1, Final.timedOut) :=
  ⟨by decide, c1_timeout_immediately_fatal.2 512 1 7 [] [9] [] (by decide)⟩

/-- C2 (counterexample): the claim says an ACK whose block number lies outside
the current window does not clear the window.  On the code, after sending
blocks 1 and 2 of a two-block window, the out-of-range `Ack 60000` clears the
window exactly as the in-range `Ack 2` would: the run proceeds to the next
(terminal empty) block instead of retransmitting, and both runs are equal. -/
theorem c2_counterexample :
    sendRunNet 1 2 1 [] [7, 8] [NetIn.pkt (Packet.Ack 60000), NetIn.pkt (Packet.Ack 0)]
      = ([(1, [7]), (2, [8]), (3, [])], Final.completed)
    ∧ sendRunNet 1 2 1 [] [7, 8] [NetIn.pkt (Packet.Ack 60000), NetIn.pkt (Packet.Ack 0)]
      = sendRunNet 1 2 1 [] [7, 8] [NetIn.pkt (Packet.Ack 2), NetIn.pkt (Packet.Ack 0)] := by
  constructor
  · decide
  · decide

/-- C2 (amended): on the sending side the client clears and refills the window
upon receiving any ACK packet whatsoever — the ACK's block number is ignored
(only logged), so an ACK outside the current window clears it exactly like the
ACK for the highest block sent: the run is independent of the ACK's block
number, and after any ACK the loop continues with an emptied window. -/
theorem c2_any_ack_clears_window :
    (∀ B W bn win src ins n m,
      sendRunNet B W bn win src (NetIn.pkt (Packet.Ack n) :: ins)
        = sendRunNet B W bn win src (NetIn.pkt (Packet.Ack m) :: ins))
    ∧ (∀ B W bn win src ins n, (fillFrom win B W src).2.2 = true →
        sendRunNet B W bn win src (NetIn.pkt (Packet.Ack n) :: ins)
          = (assignNums bn (fillFrom win B W src).1
              ++ (sendRunNet B W ((bn + (fillFrom win B W src).1.length) % 65536) []
                    (fillFrom win B W src).2.1 ins).1,
             (sendRunNet B W ((bn + (fillFrom win B W src).1.length) % 65536) []
                (fillFrom win B W src).2.1 ins).2)) := by
  constructor
  · intro B W bn win src ins n m
    rfl
  · intro B W bn win src ins n hm
    simp only [sendRunNet]
    rw [if_neg (by simp [hm]), if_pos hm]

/-- C2 (witness). -/
theorem c2_witness :
    (fillFrom [] 1 1 [4, 5]).2.2 = true
    ∧ sendRunNet 1 1 1 [] [4, 5] (NetIn.pkt (Packet.Ack 60000) :: [NetIn.pkt (Packet.Ack 0)])
        = (assignNums 1 (fillFrom [] 1 1 [4, 5]).1
            ++ (sendRunNet 1 1 ((1 + (fillFrom [] 1 1 [4, 5]).1.length) % 65536) []
                  (fillFrom [] 1 1 [4, 5]).2.1 [NetIn.pkt (Packet.Ack 0)]).1,
           (sendRunNet 1 1 ((1 + (fillFrom [] 1 1 [4, 5]).1.length) % 65536) []
              (fillFrom [] 1 1 [4, 5]).2.1 [NetIn.pkt (Packet.Ack 0)]).2) :=
  ⟨by decide,
   c2_any_ack_clears_window.2 1 1 1 [] [4, 5] [NetIn.pkt (Packet.Ack 0)] 60000 (by decide)⟩

/-- C3 (counterexample): the claim says every duplicate or out-of-order DATA
packet triggers a resent ACK carrying the last accepted block number.  The
very first response DATA packet of a transfer is exempt on the code: an
out-of-order first DATA packet (block 2 while expecting 1) is ignored without
any reply — no ACK is sent at all. -/
theorem c3_counterexample :
    recvFirst 512 (Packet.Data 2 [1, 2, 3]) = ⟨[], none, RecvNext.cont 1⟩ := by
  decide

/-- C3 (amended): within the steady-state receive loop the claim holds: an
incoming DATA packet is written and ACKed if and only if its block number is
the next expected one; on match an accepted payload shorter than the block
size completes the transfer, otherwise the expected block advances by the
wrapping increment; on mismatch nothing is written, the ACK for
`expected - 1` (the last accepted block; ACK 0 before any acceptance) is
resent and the expected block is unchanged.  The exception forced by the
counterexample: the first response packet, when it is a DATA packet with
block number other than 1, is ignored and answered with nothing. -/
theorem c3_strict_inorder :
    ∀ B e bn d,
      (bn = e →
        recvStep B e (Packet.Data bn d)
          = ⟨[Packet.Ack bn], some d,
             if d.length < B then RecvNext.done else RecvNext.cont ((e + 1) % 65536)⟩)
      ∧ (bn ≠ e →
        recvStep B e (Packet.Data bn d)
          = ⟨[Packet.Ack ((e + 65535) % 65536)], none, RecvNext.cont e⟩)
      ∧ (∀ bn2 d2, bn2 ≠ 1 →
          recvFirst B (Packet.Data bn2 d2) = ⟨[], none, RecvNext.cont 1⟩) := by
  intro B e bn d
  refine ⟨?_, ?_, ?_⟩
  · intro h
    subst h
    simp [recvStep, wadd1]
  · intro h
    simp [recvStep, h, wsub1]
  · intro bn2 d2 h
    rcases bn2 with _ | bn2
    · rfl
    · rcases bn2 with _ | bn2
      · exact absurd rfl h
      · rfl

/-- C3 (witness). -/
theorem c3_witness :
    recvStep 4 7 (Packet.Data 7 [1, 2]) = ⟨[Packet.Ack 7], some [1, 2], RecvNext.done⟩
    ∧ recvStep 4 7 (Packet.Data 9 [1, 2]) = ⟨[Packet.Ack 6], none, RecvNext.cont 7⟩
    ∧ recvFirst 4 (Packet.Data 9 [1]) = ⟨[], none, RecvNext.cont 1⟩ := by
  refine ⟨?_, ?_, ?_⟩
  · exact ((c3_strict_inorder 4 7 7 [1, 2]).1 rfl).trans (by decide)
  · exact ((c3_strict_inorder 4 7 9 [1, 2]).2.1 (by decide)).trans (by decide)
  · exact (c3_strict_inorder 4 7 9 [1]).2.2 9 [1] (by decide)

/-- C5 (confirmed): for every well-formed packet value of each of the six
variants, deserializing the serialization yields the packet back:
`deserialize (serialize p) = some p`. -/
theorem c5_roundtrip (p : Packet) (h : packetWf p = true) :
    deserialize (serialize p) = some p := by
  cases p with
  | Rrq f m o =>
    simp only [packetWf, Bool.and_eq_true] at h
    obtain ⟨⟨hf, hm⟩, _⟩ := h
    simp only [serialize, List.cons_append, List.nil_append, List.append_assoc,
      List.singleton_append]
    simp only [deserialize, parseReq, splitNul_append _ _ (textOk_ne_zero hf), hf,
      splitNul_append _ _ (textOk_ne_zero hm), hm, if_true, parseOptions_serializeOptions]
    rfl
  | Wrq f m o =>
    simp only [packetWf, Bool.and_eq_true] at h
    obtain ⟨⟨hf, hm⟩, _⟩ := h
    simp only [serialize, List.cons_append, List.nil_append, List.append_assoc,
      List.singleton_append]
    simp only [deserialize, parseReq, splitNul_append _ _ (textOk_ne_zero hf), hf,
      splitNul_append _ _ (textOk_ne_zero hm), hm, if_true, parseOptions_serializeOptions]
    rfl
  | Data b d =>
    simp only [packetWf, decide_eq_true_eq] at h
    simp only [serialize, u16be, List.cons_append, List.nil_append, List.append_assoc]
    simp only [deserialize]
    have e : b / 256 % 256 * 256 + b % 256 = b := by omega
    rw [e]
  | Ack b =>
    simp only [packetWf, decide_eq_true_eq] at h
    simp only [serialize, u16be, List.cons_append, List.nil_append]
    simp only [deserialize]
    have e : b / 256 % 256 * 256 + b % 256 = b := by omega
    rw [e]
  | Oack o =>
    simp only [serialize, List.cons_append, List.nil_append]
    simp only [deserialize, parseOptions_serializeOptions]
    rfl
  | Error c m =>
    simp only [packetWf, Bool.and_eq_true, decide_eq_true_eq] at h
    obtain ⟨hc, hm⟩ := h
    simp only [serialize, u16be, List.cons_append, List.nil_append, List.append_assoc,
      List.singleton_append]
    simp only [deserialize, splitNul_append _ _ (textOk_ne_zero hm), hm]
    simp only [List.isEmpty_nil, Bool.and_self, if_true]
    have e : c / 256 % 256 * 256 + c % 256 = c := by omega
    rw [e]

/-- C5 (witness): one concrete packet per variant. -/
theorem c5_witness :
    (packetWf (Packet.Rrq [102, 46, 116] [111, 99, 116, 101, 116]
        [⟨OptionType.BlockSize, 1024⟩, ⟨OptionType.TransferSize, 0⟩]) = true
     ∧ deserialize (serialize (Packet.Rrq [102, 46, 116] [111, 99, 116, 101, 116]
        [⟨OptionType.BlockSize, 1024⟩, ⟨OptionType.TransferSize, 0⟩]))
       = some (Packet.Rrq [102, 46, 116] [111, 99, 116, 101, 116]
        [⟨OptionType.BlockSize, 1024⟩, ⟨OptionType.TransferSize, 0⟩]))
    ∧ (packetWf (Packet.Wrq [97] [111] [⟨OptionType.WindowSize, 4⟩]) = true
     ∧ deserialize (serialize (Packet.Wrq [97] [111] [⟨OptionType.WindowSize, 4⟩]))
       = some (Packet.Wrq [97] [111] [⟨OptionType.WindowSize, 4⟩]))
    ∧ (packetWf (Packet.Data 65535 [0, 1, 2, 255]) = true
     ∧ deserialize (serialize (Packet.Data 65535 [0, 1, 2, 255]))
       = some (Packet.Data 65535 [0, 1, 2, 255]))
    ∧ (packetWf (Packet.Ack 0) = true
     ∧ deserialize (serialize (Packet.Ack 0)) = some (Packet.Ack 0))
    ∧ (packetWf (Packet.Oack [⟨OptionType.Timeout, 5⟩]) = true
     ∧ deserialize (serialize (Packet.Oack [⟨OptionType.Timeout, 5⟩]))
       = some (Packet.Oack [⟨OptionType.Timeout, 5⟩]))
    ∧ (packetWf (Packet.Error 3 [100, 105, 115, 107]) = true
     ∧ deserialize (serialize (Packet.Error 3 [100, 105, 115, 107]))
       = some (Packet.Error 3 [100, 105, 115, 107])) :=
  ⟨⟨by decide, c5_roundtrip _ (by decide)⟩,
   ⟨by decide, c5_roundtrip _ (by decide)⟩,
   ⟨by decide, c5_roundtrip _ (by decide)⟩,
   ⟨by decide, c5_roundtrip _ (by decide)⟩,
   ⟨by decide, c5_roundtrip _ (by decide)⟩,
   ⟨by decide, c5_roundtrip _ (by decide)⟩⟩

/-- C4 (confirmed): for a source of length L sent with block size B and window
size W, the happy-path run of the send loop completes and produces exactly
`ceil(L/B)` DATA blocks when `L mod B != 0` and exactly `L/B + 1` blocks when
`L mod B == 0` (including L = 0); the final block is always strictly shorter
than B, and in the exact-multiple case it is the explicit empty block. -/
theorem c4_block_count :
    ∀ B W k src r, 0 < B → 0 < W → src.length < k →
      r = sendRunNet B W 1 [] src (List.replicate k (NetIn.pkt (Packet.Ack 0))) →
      r.2 = Final.completed
      ∧ r.1.length = (if src.length % B = 0 then src.length / B + 1
                      else (src.length + (B - 1)) / B)
      ∧ (∀ pr, r.1.getLast? = some pr → pr.2.length < B)
      ∧ (src.length % B = 0 → ∃ n, r.1.getLast? = some (n, [])) := by
  intro B W k src r hB hW hk hr
  subst hr
  obtain ⟨hc, hl, hg⟩ := sendRunNet_happy B W hB hW k src 1 hk
  rw [List.length_map] at hl
  rw [getLast_map_snd] at hg
  refine ⟨hc, ?_, ?_, ?_⟩
  · rw [hl]
    by_cases hmod : src.length % B = 0
    · rw [if_pos hmod]
    · rw [if_neg hmod]
      have e1 := Nat.div_add_mod src.length B
      have hmlt : src.length % B < B := Nat.mod_lt _ hB
      have h2 : src.length + (B - 1) = B * (src.length / B) + (B + (src.length % B - 1)) := by
        omega
      have harr : (src.length + (B - 1)) / B = src.length / B + 1 := by
        rw [h2, Nat.mul_add_div hB, Nat.add_div_left _ hB,
          Nat.div_eq_of_lt (show src.length % B - 1 < B by omega)]
      rw [harr]
  · intro pr hpr
    rw [hpr] at hg
    injection hg with h2
    rw [h2, List.length_drop]
    have e1 := Nat.div_add_mod src.length B
    have hmlt : src.length % B < B := Nat.mod_lt _ hB
    omega
  · intro hmod
    cases hq : (sendRunNet B W 1 [] src (List.replicate k (NetIn.pkt (Packet.Ack 0)))).1.getLast? with
    | none => rw [hq] at hg; simp at hg
    | some pr =>
      obtain ⟨a, b⟩ := pr
      rw [hq] at hg
      injection hg with h2
      have hdrop : List.drop (B * (src.length / B)) src = [] := by
        have e1 := Nat.div_add_mod src.length B
        apply List.drop_eq_nil_of_le
        omega
      exact ⟨a, by rw [show b = List.drop (B * (src.length / B)) src from h2, hdrop]⟩

/-- C4 (witness). -/
theorem c4_witness :
    (0 : Nat) < 2 ∧ (0 : Nat) < 1 ∧ ([1, 2, 3] : List Nat).length < 4
    ∧ ((sendRunNet 2 1 1 [] [1, 2, 3] (List.replicate 4 (NetIn.pkt (Packet.Ack 0)))).2
         = Final.completed
       ∧ (sendRunNet 2 1 1 [] [1, 2, 3] (List.replicate 4 (NetIn.pkt (Packet.Ack 0)))).1.length
           = (if ([1, 2, 3] : List Nat).length % 2 = 0
              then ([1, 2, 3] : List Nat).length / 2 + 1
              else (([1, 2, 3] : List Nat).length + (2 - 1)) / 2)
       ∧ (∀ pr,
            (sendRunNet 2 1 1 [] [1, 2, 3] (List.replicate 4 (NetIn.pkt (Packet.Ack 0)))).1.getLast?
              = some pr → pr.2.length < 2)
       ∧ (([1, 2, 3] : List Nat).length % 2 = 0 → ∃ n,
            (sendRunNet 2 1 1 [] [1, 2, 3] (List.replicate 4 (NetIn.pkt (Packet.Ack 0)))).1.getLast?
              = some (n, []))) :=
  ⟨by decide, by decide, by decide,
   c4_block_count 2 1 4 [1, 2, 3] _ (by decide) (by decide) (by decide) rfl⟩

/-- C6 (confirmed): block numbers wrap modulo 65536 on every increment.  On
the sending side, the i-th DATA packet of a transfer carries block number
`(1 + i) % 65536` — for a transfer exceeding 65535 blocks, numbering
continues from 0.  On the receiving side, accepting the expected block 65535
advances the expected block to 0 (not a termination, not a failure), and at
expected block 0 an incoming DATA packet numbered 0 is accepted and written,
not misinterpreted as a duplicate. -/
theorem c6_wraparound :
    (∀ B W src ins i pr,
       (sendRunNet B W 1 [] src ins).1[i]? = some pr → pr.1 = (1 + i) % 65536)
    ∧ (∀ B d, ¬ d.length < B →
        recvStep B 65535 (Packet.Data 65535 d)
          = ⟨[Packet.Ack 65535], some d, RecvNext.cont 0⟩)
    ∧ (∀ B d, (recvStep B 0 (Packet.Data 0 d)).wrote = some d) := by
  refine ⟨?_, ?_, ?_⟩
  · intro B W src ins i pr h
    obtain ⟨ds, hds⟩ := sendRunNet_fst_shape B W ins 1 [] src (by norm_num)
    rw [hds, assignNums_getElem ds 1 i (by norm_num)] at h
    cases hd : ds[i]? with
    | none => rw [hd] at h; simp at h
    | some d =>
      rw [hd] at h
      injection h with h2
      rw [← h2]
  · intro B d h
    simp [recvStep, wadd1, h]
  · intro B d
    rfl

/-- C6 (witness). -/
theorem c6_witness :
    (sendRunNet 1 1 1 [] [5, 6]
       [NetIn.pkt (Packet.Ack 0), NetIn.pkt (Packet.Ack 0), NetIn.pkt (Packet.Ack 0)]).1[1]?
      = some (2, [6])
    ∧ (2, ([6] : List Nat)).1 = (1 + 1) % 65536
    ∧ recvStep 1 65535 (Packet.Data 65535 [9])
        = ⟨[Packet.Ack 65535], some [9], RecvNext.cont 0⟩ := by
  refine ⟨by decide, ?_, ?_⟩
  · exact c6_wraparound.1 1 1 [5, 6]
      [NetIn.pkt (Packet.Ack 0), NetIn.pkt (Packet.Ack 0), NetIn.pkt (Packet.Ack 0)]
      1 (2, [6]) (by decide)
  · exact c6_wraparound.2.1 1 [9] (by decide)

/-- C7 (counterexample): the claim says a received ERROR packet is terminal in
any transfer state.  On the code there is one state where it is not: while
waiting for the first DATA packet after an OACK, `receive_file` only inspects
whether the first packet is `Data` with block number 1 — an ERROR packet
arriving there is silently ignored and the client keeps waiting instead of
failing with the peer's code and message. -/
theorem c7_counterexample :
    recvFirst 512 (Packet.Error 1 [111, 111, 112, 115]) = ⟨[], none, RecvNext.cont 1⟩ := by
  decide

/-- C7 (amended): in every transfer state except the wait for the first DATA
packet following an OACK on a GET, a received ERROR packet terminates the
transfer immediately as failed, no reply packet of any kind is sent in
response, no retry occurs, and the failure carries the peer-supplied error
code and message: this holds for the first response to an RRQ, the first
response to a WRQ, every iteration of the receive loop, and every iteration
of the send loop (whose sent packets are exactly those already sent before
the ERROR arrived). -/
theorem c7_error_terminal :
    (∀ cfg remote c m,
       getRun cfg remote (Packet.Error c m)
         = ([Action.bindSocket,
             Action.sendPkt (Packet.Rrq remote cfg.mode (clientRequestOptions cfg 0)),
             Action.connectPeer], InitOutcome.failed c m))
    ∧ (∀ cfg fs remote c m,
        putRun cfg true fs remote (Packet.Error c m)
          = ([Action.bindSocket,
              Action.sendPkt (Packet.Wrq remote cfg.mode (clientRequestOptions cfg fs)),
              Action.connectPeer], InitOutcome.failed c m))
    ∧ (∀ B e c m, recvStep B e (Packet.Error c m) = ⟨[], none, RecvNext.fail c m⟩)
    ∧ (∀ B e c m rest,
        recvRun B e (NetIn.pkt (Packet.Error c m) :: rest) = ([], Final.peerFailed c m))
    ∧ (∀ B W bn win src ins c m, 0 < W →
        sendRunNet B W bn win src (NetIn.pkt (Packet.Error c m) :: ins)
          = ((sendRunNet B W bn win src []).1, Final.peerFailed c m)) := by
  refine ⟨fun cfg remote c m => rfl, fun cfg fs remote c m => rfl,
          fun B e c m => rfl, fun B e c m rest => rfl, ?_⟩
  intro B W bn win src ins c m hW
  have hne := fillFrom_fst_ne_nil win B W src hW
  simp only [sendRunNet]
  rw [if_neg (by simp [hne]), if_neg (by simp [hne])]

/-- C7 (witness). -/
theorem c7_witness :
    0 < 1
    ∧ sendRunNet 8 1 1 [] [2] (NetIn.pkt (Packet.Error 4 [98]) :: [])
        = ((sendRunNet 8 1 1 [] [2] []).1, Final.peerFailed 4 [98]) :=
  ⟨by decide, c7_error_terminal.2.2.2.2 8 1 1 [] [2] [] 4 [98] (by decide)⟩

/-- C8 (confirmed): when no OACK is exchanged — the first response to an RRQ
is a DATA packet, or the first response to a WRQ is ACK 0 — the client
proceeds with `OptionsProtocol::default()`, whose profile is block size 512
and window size 1, exactly the defaults `ClientConfig::new` installs. -/
theorem c8_no_oack_defaults :
    (∀ cfg remote bn d,
       (getRun cfg remote (Packet.Data bn d)).2 = InitOutcome.proceed OptionsProtocol.default)
    ∧ (∀ cfg fs remote,
        (putRun cfg true fs remote (Packet.Ack 0)).2 = InitOutcome.proceed OptionsProtocol.default)
    ∧ OptionsProtocol.default.block_size = 512
    ∧ OptionsProtocol.default.window_size = 1
    ∧ ClientConfig.new.block_size = OptionsProtocol.default.block_size
    ∧ ClientConfig.new.window_size = OptionsProtocol.default.window_size :=
  ⟨fun _ _ _ _ => rfl, fun _ _ _ => rfl, rfl, rfl, rfl, rfl⟩

/-- C9 (confirmed): a `Client::put` whose local file does not exist returns
the error before any other effect: no socket is bound and no datagram — in
particular no WRQ — is sent to the server (the action trace is empty). -/
theorem c9_put_missing_file_sends_nothing :
    ∀ cfg fs remote response,
      putRun cfg false fs remote response = ([], InitOutcome.localError) :=
  fun _ _ _ _ => rfl

/-- C10 (confirmed): a `Client::get` whose first server response is an ERROR
packet returns the failure — carrying the peer's code and message — before
the local destination file is created or truncated: the action trace is
exactly bind, send RRQ, reconnect, with no file creation. -/
theorem c10_get_error_before_create :
    ∀ cfg remote c m,
      getRun cfg remote (Packet.Error c m)
        = ([Action.bindSocket,
            Action.sendPkt (Packet.Rrq remote cfg.mode (clientRequestOptions cfg 0)),
            Action.connectPeer], InitOutcome.failed c m)
      ∧ Action.createFile ∉ (getRun cfg remote (Packet.Error c m)).1 := by
  intro cfg remote c m
  refine ⟨rfl, ?_⟩
  simp [getRun]

end Xtool
